import Mathlib

/-!
# Verification of `restore_lamp.py`

A shallow embedding of the single function `restore_assembled_state` of
this repository, together with proofs of the behavioural properties
stated in its specification.

The Python source reads a JSON file from a fixed path, parses it into a
mapping from object names to transform records, and for each entry looks
the object up in the host application's scene registry; when the object
exists it assigns the record's `location`, `rotation_euler` and `scale`
onto it and prints a "Restored" message, otherwise the entry is skipped
silently.  A missing file is reported and swallowed; every other failure
(JSON parse error, wrong-shaped record, host rejection of a value)
propagates to the caller.

The embedding models:
* JSON documents (`Json`), with numbers as exact rationals since the
  script performs no arithmetic on them — values are passed through;
* the scene registry as a list of `SceneObject`s looked up by name
  (`findByName`) and mutated in place (`updateFirst`); the extra field
  `other` stands for every object field the script never touches;
* the outside world as a `FileState`: the file is missing, is present
  but fails to parse, or parses to a document;
* a run's observable outcome as `RunOutcome`: the final scene, the list
  of printed lines, and the error that terminated the run, if any.

Python evaluation order is kept: the object lookup happens before any
key of the record is read, and the three assignments happen one at a
time, so a record that fails on `rotation_euler` has already mutated
`location`.
-/

set_option autoImplicit false

namespace RestoreLamp

/-- A JSON value.  Numbers are modelled as exact rationals: the script
passes numeric components through unchanged, performing no arithmetic. -/
inductive Json where
  | null : Json
  | bool (b : Bool) : Json
  | num (q : Rat) : Json
  | str (s : String) : Json
  | arr (elems : List Json) : Json
  | obj (fields : List (String × Json)) : Json

/-- An ordered triple of numeric components, the value type of the three
transform fields (`location`, `rotation_euler`, `scale`). -/
structure Triple where
  x : Rat
  y : Rat
  z : Rat
deriving DecidableEq, Repr

/-- A live object of the host application's scene registry.  The script
reads its `name` and assigns its three transform fields; `other` stands
for all the object state the script never reads or writes. -/
structure SceneObject where
  name : String
  location : Triple
  rotation_euler : Triple
  scale : Triple
  other : Nat
deriving DecidableEq, Repr

/-- The host scene registry: a finite collection of named objects. -/
abbrev Scene := List SceneObject

/-- An unhandled failure terminating the run: a JSON parse failure
(`json.load`), a missing key or non-subscriptable value
(`transforms["location"]`), or the host rejecting an assigned value
that is not a 3-component numeric vector. -/
inductive RunError where
  | parseError (msg : String)
  | keyError (key : String)
  | typeError (msg : String)
deriving DecidableEq, Repr

/-- The observable outcome of a run: the final scene, the printed lines
in order, and the error that aborted the run (`none` when the run
completed normally). -/
structure RunOutcome where
  scene : Scene
  output : List String
  err : Option RunError
deriving DecidableEq, Repr

/-- The hard-coded state-file path of the source. -/
def state_path : String :=
  "/Users/andresguarnizo/Projects/Personal_Website/lamp_assembled_state.json"

/-- The state of the world at the fixed path: the file does not exist,
it exists but its contents fail to parse as JSON, or it parses to a
document.  A parsed `Json.obj` plays the role of the Python dict
returned by `json.load`, so its keys are unique. -/
inductive FileState where
  | missing : FileState
  | invalidJson (msg : String) : FileState
  | parsed (doc : Json) : FileState

/-- Dictionary lookup on the fields of a JSON object (first match). -/
def jlookup : List (String × Json) → String → Option Json
  | [], _ => none
  | (k, v) :: rest, key => if k = key then some v else jlookup rest key

/-- `bpy.data.objects.get(name)`: the first object with the given name,
or `none`. -/
def findByName : Scene → String → Option SceneObject
  | [], _ => none
  | o :: rest, n => if o.name = n then some o else findByName rest n

/-- In-place mutation of the object returned by the registry lookup:
apply `f` to the first object named `n`, keeping everything else. -/
def updateFirst : Scene → String → (SceneObject → SceneObject) → Scene
  | [], _, _ => []
  | o :: rest, n, f => if o.name = n then f o :: rest else o :: updateFirst rest n f

/-- Python `transforms[key]`: a `KeyError` when the key is absent from a
dict, a `TypeError` when the value is not a dict at all. -/
def subscript (j : Json) (key : String) : Except RunError Json :=
  match j with
  | .obj fields =>
    match jlookup fields key with
    | some v => .ok v
    | none => .error (.keyError key)
  | _ => .error (.typeError "value is not subscriptable by a string key")

/-- The host API's coercion of an assigned value into a 3-component
numeric vector; anything else is rejected (`HostRejection`). -/
def asTriple (j : Json) : Except RunError Triple :=
  match j with
  | .arr [.num a, .num b, .num c] => .ok ⟨a, b, c⟩
  | _ => .error (.typeError "expected a sequence of 3 numbers")

/-- Evaluate `transforms[key]` and coerce it for assignment. -/
def tripleOf (record : Json) (key : String) : Except RunError Triple :=
  match subscript record key with
  | .error e => .error e
  | .ok v => asTriple v

/-- `tripleOf` as an optional value, for stating exact pass-through. -/
def tripleOfD (record : Json) (key : String) : Option Triple :=
  (tripleOf record key).toOption

/-- `obj.location = v`. -/
def withLoc (v : Triple) (o : SceneObject) : SceneObject :=
  { o with location := v }

/-- `obj.rotation_euler = v`. -/
def withRot (v : Triple) (o : SceneObject) : SceneObject :=
  { o with rotation_euler := v }

/-- `obj.scale = v`. -/
def withScale (v : Triple) (o : SceneObject) : SceneObject :=
  { o with scale := v }

/-- One iteration of the loop body, for the entry `(n, record)`:
look the object up; if absent, skip silently; otherwise evaluate and
assign the three fields in source order — a failure after `location`
was assigned leaves that assignment in place — and print the message. -/
def applyEntry (scene : Scene) (n : String) (record : Json) : RunOutcome :=
  match findByName scene n with
  | none => ⟨scene, [], none⟩
  | some _ =>
    match tripleOf record "location" with
    | .error e => ⟨scene, [], some e⟩
    | .ok lt =>
      let s1 := updateFirst scene n (withLoc lt)
      match tripleOf record "rotation_euler" with
      | .error e => ⟨s1, [], some e⟩
      | .ok rt =>
        let s2 := updateFirst s1 n (withRot rt)
        match tripleOf record "scale" with
        | .error e => ⟨s2, [], some e⟩
        | .ok st =>
          ⟨updateFirst s2 n (withScale st), ["Restored " ++ n], none⟩

/-- The loop `for obj_name, transforms in state.items():` — entries are
processed in mapping order and the first unhandled error aborts the
remainder of the pass. -/
def runEntries : Scene → List (String × Json) → RunOutcome
  | scene, [] => ⟨scene, [], none⟩
  | scene, (n, record) :: rest =>
    let head := applyEntry scene n record
    match head.err with
    | some _ => head
    | none =>
      let tail := runEntries head.scene rest
      ⟨tail.scene, head.output ++ tail.output, tail.err⟩

/-- `restore_assembled_state`, as a function of the file state and the
initial scene.  A missing file prints one diagnostic and returns; a
parse failure propagates with nothing applied; `state.items()` on a
non-object document is a type failure; otherwise the entries are
processed in order. -/
def restore_assembled_state (fs : FileState) (scene : Scene) : RunOutcome :=
  match fs with
  | .missing => ⟨scene, ["Error: " ++ state_path ++ " not found."], none⟩
  | .invalidJson msg => ⟨scene, [], some (.parseError msg)⟩
  | .parsed doc =>
    match doc with
    | .obj entries => runEntries scene entries
    | _ => ⟨scene, [], some (.typeError "state document is not an object")⟩

/-- A JSON value accepted by the host as a 3-component numeric vector. -/
def isNumTriple : Json → Bool
  | .arr [.num _, .num _, .num _] => true
  | _ => false

/-- A well-shaped `TransformRecord`: a JSON object carrying the keys
`location`, `rotation_euler` and `scale`, each a 3-component numeric
triple (the spec's record invariant). -/
def recordOk (record : Json) : Bool :=
  match record with
  | .obj fields =>
    (match jlookup fields "location" with
     | some v => isNumTriple v
     | none => false) &&
    (match jlookup fields "rotation_euler" with
     | some v => isNumTriple v
     | none => false) &&
    (match jlookup fields "scale" with
     | some v => isNumTriple v
     | none => false)
  | _ => false

/-- The object names a file state can address: the keys of the parsed
top-level object, and nothing in every other case. -/
def stateKeys (fs : FileState) : List String :=
  match fs with
  | .parsed (.obj entries) => entries.map Prod.fst
  | _ => []

/-- A `FileState` carrying a genuine `SavedState`: when a document
parsed, its top level is a dict, whose keys are unique (the spec's
`SavedState` is a mapping with unique string keys, and `json.load`
returns a Python dict). -/
def IsSavedState (fs : FileState) : Prop :=
  match fs with
  | .parsed doc =>
    match doc with
    | .obj entries => (entries.map Prod.fst).Nodup
    | _ => False
  | _ => True

/-! ## Basic lemmas about the scene registry -/

theorem withLoc_name (v : Triple) (o : SceneObject) : (withLoc v o).name = o.name := rfl

theorem withRot_name (v : Triple) (o : SceneObject) : (withRot v o).name = o.name := rfl

theorem withScale_name (v : Triple) (o : SceneObject) : (withScale v o).name = o.name := rfl

/-- Assigning all three transform fields at once. -/
def withAll (lt rt st : Triple) (o : SceneObject) : SceneObject :=
  { o with location := lt, rotation_euler := rt, scale := st }

theorem withAll_eq (lt rt st : Triple) (o : SceneObject) :
    withScale st (withRot rt (withLoc lt o)) = withAll lt rt st o := rfl

theorem updateFirst_names (s : Scene) (n : String) (f : SceneObject → SceneObject)
    (hf : ∀ o, (f o).name = o.name) :
    (updateFirst s n f).map SceneObject.name = s.map SceneObject.name := by
  induction s with
  | nil => rfl
  | cons o rest ih =>
    by_cases h : o.name = n
    · simp [updateFirst, h, hf]
    · simp [updateFirst, h, ih]

theorem updateFirst_length (s : Scene) (n : String) (f : SceneObject → SceneObject) :
    (updateFirst s n f).length = s.length := by
  induction s with
  | nil => rfl
  | cons o rest ih =>
    by_cases h : o.name = n
    · simp [updateFirst, h]
    · simp [updateFirst, h, ih]

theorem findByName_isSome_iff (s : Scene) (n : String) :
    (findByName s n).isSome = true ↔ n ∈ s.map SceneObject.name := by
  induction s with
  | nil => simp [findByName]
  | cons o rest ih =>
    by_cases h : o.name = n
    · simp [findByName, h]
    · have h' : ¬n = o.name := fun hn => h hn.symm
      simp [findByName, h, h', ih]

theorem findByName_eq_none_iff (s : Scene) (n : String) :
    findByName s n = none ↔ n ∉ s.map SceneObject.name := by
  rw [← findByName_isSome_iff]
  cases findByName s n <;> simp

theorem findByName_isSome_congr {s t : Scene} (n : String)
    (h : s.map SceneObject.name = t.map SceneObject.name) :
    (findByName s n).isSome = (findByName t n).isSome := by
  by_cases hm : n ∈ t.map SceneObject.name
  · have hm' : n ∈ s.map SceneObject.name := by rw [h]; exact hm
    rw [(findByName_isSome_iff s n).mpr hm', (findByName_isSome_iff t n).mpr hm]
  · have h1 : ¬(findByName s n).isSome = true := fun hc => by
      rw [findByName_isSome_iff, h] at hc
      exact hm hc
    have h2 : ¬(findByName t n).isSome = true := fun hc =>
      hm ((findByName_isSome_iff t n).mp hc)
    rw [Bool.not_eq_true] at h1 h2
    rw [h1, h2]

theorem findByName_updateFirst_ne (s : Scene) (f : SceneObject → SceneObject)
    {m n : String} (hf : ∀ o, (f o).name = o.name) (h : m ≠ n) :
    findByName (updateFirst s n f) m = findByName s m := by
  induction s with
  | nil => rfl
  | cons o rest ih =>
    have hnm : ¬n = m := fun hc => h hc.symm
    by_cases hn : o.name = n
    · have h1 : ¬(f o).name = m := by rw [hf, hn]; exact hnm
      have h2 : ¬o.name = m := by rw [hn]; exact hnm
      simp [updateFirst, findByName, hn, h1, h2, hnm, h]
    · by_cases hm : o.name = m
      · simp [updateFirst, findByName, hn, hm, hnm, h]
      · simp [updateFirst, findByName, hn, hm, hnm, h, ih]

theorem findByName_updateFirst_self (s : Scene) (n : String) (f : SceneObject → SceneObject)
    (hf : ∀ o, (f o).name = o.name) :
    findByName (updateFirst s n f) n = (findByName s n).map f := by
  induction s with
  | nil => rfl
  | cons o rest ih =>
    by_cases hn : o.name = n
    · have : (f o).name = n := by rw [hf, hn]
      simp [updateFirst, findByName, hn, this]
    · simp [updateFirst, findByName, hn, ih]

theorem updateFirst_updateFirst (s : Scene) (n : String) (f g : SceneObject → SceneObject)
    (hf : ∀ o, (f o).name = o.name) :
    updateFirst (updateFirst s n f) n g = updateFirst s n (fun o => g (f o)) := by
  induction s with
  | nil => rfl
  | cons o rest ih =>
    by_cases hn : o.name = n
    · have : (f o).name = n := by rw [hf, hn]
      simp [updateFirst, hn, this]
    · simp [updateFirst, hn, ih]

theorem updateFirst_of_find_none (s : Scene) (n : String) (f : SceneObject → SceneObject)
    (h : findByName s n = none) : updateFirst s n f = s := by
  induction s with
  | nil => rfl
  | cons o rest ih =>
    by_cases hn : o.name = n
    · simp [findByName, hn] at h
    · simp [findByName, hn] at h
      simp [updateFirst, hn, ih h]

theorem updateFirst_eq_self (s : Scene) (n : String) (f : SceneObject → SceneObject)
    (o : SceneObject) (h : findByName s n = some o) (hfo : f o = o) :
    updateFirst s n f = s := by
  induction s with
  | nil => simp [findByName] at h
  | cons o' rest ih =>
    by_cases hn : o'.name = n
    · have h' : o' = o := by simpa [findByName, hn] using h
      subst h'
      simp [updateFirst, hn, hfo]
    · have h' : findByName rest n = some o := by simpa [findByName, hn] using h
      simp [updateFirst, hn, ih h']

/-! ## Characterizations of one loop iteration -/

theorem applyEntry_skip (s : Scene) (n : String) (r : Json)
    (h : findByName s n = none) : applyEntry s n r = ⟨s, [], none⟩ := by
  simp [applyEntry, h]

theorem applyEntry_success (s : Scene) (n : String) (r : Json) (o : SceneObject)
    (lt rt st : Triple)
    (h : findByName s n = some o)
    (hl : tripleOf r "location" = .ok lt)
    (hr : tripleOf r "rotation_euler" = .ok rt)
    (hs : tripleOf r "scale" = .ok st) :
    applyEntry s n r = ⟨updateFirst s n (withAll lt rt st), ["Restored " ++ n], none⟩ := by
  simp only [applyEntry, h, hl, hr, hs]
  rw [updateFirst_updateFirst _ n (withRot rt) (withScale st) (withRot_name rt),
    updateFirst_updateFirst s n (withLoc lt) _ (withLoc_name lt)]
  have hfun : (fun o => withScale st (withRot rt (withLoc lt o))) = withAll lt rt st :=
    funext fun o => withAll_eq lt rt st o
  rw [hfun]

theorem applyEntry_err_loc (s : Scene) (n : String) (r : Json) (o : SceneObject)
    (e : RunError) (h : findByName s n = some o)
    (hl : tripleOf r "location" = .error e) :
    applyEntry s n r = ⟨s, [], some e⟩ := by
  simp [applyEntry, h, hl]

theorem applyEntry_err_rot (s : Scene) (n : String) (r : Json) (o : SceneObject)
    (lt : Triple) (e : RunError) (h : findByName s n = some o)
    (hl : tripleOf r "location" = .ok lt)
    (hr : tripleOf r "rotation_euler" = .error e) :
    applyEntry s n r = ⟨updateFirst s n (withLoc lt), [], some e⟩ := by
  simp [applyEntry, h, hl, hr]

theorem applyEntry_err_scale (s : Scene) (n : String) (r : Json) (o : SceneObject)
    (lt rt : Triple) (e : RunError) (h : findByName s n = some o)
    (hl : tripleOf r "location" = .ok lt)
    (hr : tripleOf r "rotation_euler" = .ok rt)
    (hs : tripleOf r "scale" = .error e) :
    applyEntry s n r =
      ⟨updateFirst (updateFirst s n (withLoc lt)) n (withRot rt), [], some e⟩ := by
  simp [applyEntry, h, hl, hr, hs]

theorem applyEntry_names (s : Scene) (n : String) (r : Json) :
    (applyEntry s n r).scene.map SceneObject.name = s.map SceneObject.name := by
  cases h : findByName s n with
  | none => rw [applyEntry_skip s n r h]
  | some o =>
    cases hl : tripleOf r "location" with
    | error e => rw [applyEntry_err_loc s n r o e h hl]
    | ok lt =>
      cases hr : tripleOf r "rotation_euler" with
      | error e =>
        rw [applyEntry_err_rot s n r o lt e h hl hr]
        exact updateFirst_names s n _ (fun o => rfl)
      | ok rt =>
        cases hs : tripleOf r "scale" with
        | error e =>
          rw [applyEntry_err_scale s n r o lt rt e h hl hr hs]
          rw [updateFirst_names _ n (withRot rt) (withRot_name rt)]
          exact updateFirst_names s n _ (fun o => rfl)
        | ok st =>
          rw [applyEntry_success s n r o lt rt st h hl hr hs]
          exact updateFirst_names s n _ (fun o => rfl)

theorem findByName_applyEntry_ne (s : Scene) (n : String) (r : Json)
    {m : String} (hm : m ≠ n) :
    findByName (applyEntry s n r).scene m = findByName s m := by
  cases h : findByName s n with
  | none => rw [applyEntry_skip s n r h]
  | some o =>
    cases hl : tripleOf r "location" with
    | error e => rw [applyEntry_err_loc s n r o e h hl]
    | ok lt =>
      cases hr : tripleOf r "rotation_euler" with
      | error e =>
        rw [applyEntry_err_rot s n r o lt e h hl hr]
        exact findByName_updateFirst_ne s _ (fun o => rfl) hm
      | ok rt =>
        cases hs : tripleOf r "scale" with
        | error e =>
          rw [applyEntry_err_scale s n r o lt rt e h hl hr hs]
          rw [findByName_updateFirst_ne _ (withRot rt) (withRot_name rt) hm]
          exact findByName_updateFirst_ne s _ (fun o => rfl) hm
        | ok st =>
          rw [applyEntry_success s n r o lt rt st h hl hr hs]
          exact findByName_updateFirst_ne s _ (fun o => rfl) hm

/-! ## Invariants of the full pass -/

theorem runEntries_names (es : List (String × Json)) :
    ∀ s : Scene, (runEntries s es).scene.map SceneObject.name = s.map SceneObject.name := by
  induction es with
  | nil => intro s; rfl
  | cons p rest ih =>
    intro s
    obtain ⟨n, r⟩ := p
    show (runEntries s ((n, r) :: rest)).scene.map SceneObject.name = _
    rw [runEntries]
    cases he : (applyEntry s n r).err with
    | some e => simpa [he] using applyEntry_names s n r
    | none =>
      simp only [he]
      rw [ih (applyEntry s n r).scene]
      exact applyEntry_names s n r

theorem runEntries_length (es : List (String × Json)) (s : Scene) :
    (runEntries s es).scene.length = s.length := by
  have h := runEntries_names es s
  have := congrArg List.length h
  simpa using this

theorem findByName_runEntries_notmem (es : List (String × Json)) :
    ∀ s : Scene, ∀ m : String, m ∉ es.map Prod.fst →
      findByName (runEntries s es).scene m = findByName s m := by
  induction es with
  | nil => intro s m _; rfl
  | cons p rest ih =>
    intro s m hm
    obtain ⟨n, r⟩ := p
    simp only [List.map_cons, List.mem_cons] at hm
    push_neg at hm
    obtain ⟨hmn, hmrest⟩ := hm
    rw [runEntries]
    cases he : (applyEntry s n r).err with
    | some e => simpa [he] using findByName_applyEntry_ne s n r hmn
    | none =>
      simp only [he]
      rw [ih (applyEntry s n r).scene m hmrest]
      exact findByName_applyEntry_ne s n r hmn

/-! ## Well-shaped records and the three key lookups -/

theorem isNumTriple_shape (v : Json) (h : isNumTriple v = true) :
    ∃ a b c, v = .arr [.num a, .num b, .num c] := by
  unfold isNumTriple at h
  split at h
  · next a b c => exact ⟨a, b, c, rfl⟩
  · exact absurd h (by simp)

theorem asTriple_ok_shape (v : Json) (t : Triple) (h : asTriple v = Except.ok t) :
    isNumTriple v = true := by
  unfold asTriple at h
  split at h
  · next a b c => rfl
  · exact Except.noConfusion h

theorem tripleOf_ok_key (fields : List (String × Json)) (k : String) (t : Triple)
    (h : tripleOf (.obj fields) k = Except.ok t) :
    ∃ v, jlookup fields k = some v ∧ isNumTriple v = true := by
  cases hk : jlookup fields k with
  | none =>
    simp only [tripleOf, subscript, hk] at h
    exact Except.noConfusion h
  | some v =>
    simp only [tripleOf, subscript, hk] at h
    exact ⟨v, rfl, asTriple_ok_shape v t h⟩

theorem recordOk_iff (r : Json) :
    recordOk r = true ↔
      ∃ lt rt st, tripleOf r "location" = Except.ok lt ∧
        tripleOf r "rotation_euler" = Except.ok rt ∧
        tripleOf r "scale" = Except.ok st := by
  constructor
  · intro h
    cases r with
    | obj fields =>
      simp only [recordOk, Bool.and_eq_true] at h
      obtain ⟨⟨h1, h2⟩, h3⟩ := h
      cases hk1 : jlookup fields "location" with
      | none => rw [hk1] at h1; exact absurd h1 (by simp)
      | some v1 =>
      cases hk2 : jlookup fields "rotation_euler" with
      | none => rw [hk2] at h2; exact absurd h2 (by simp)
      | some v2 =>
      cases hk3 : jlookup fields "scale" with
      | none => rw [hk3] at h3; exact absurd h3 (by simp)
      | some v3 =>
        rw [hk1] at h1; rw [hk2] at h2; rw [hk3] at h3
        obtain ⟨a1, b1, c1, rfl⟩ := isNumTriple_shape v1 h1
        obtain ⟨a2, b2, c2, rfl⟩ := isNumTriple_shape v2 h2
        obtain ⟨a3, b3, c3, rfl⟩ := isNumTriple_shape v3 h3
        exact ⟨⟨a1, b1, c1⟩, ⟨a2, b2, c2⟩, ⟨a3, b3, c3⟩,
          by simp [tripleOf, subscript, hk1, asTriple],
          by simp [tripleOf, subscript, hk2, asTriple],
          by simp [tripleOf, subscript, hk3, asTriple]⟩
    | null => exact absurd h (by simp [recordOk])
    | bool b => exact absurd h (by simp [recordOk])
    | num q => exact absurd h (by simp [recordOk])
    | str s => exact absurd h (by simp [recordOk])
    | arr elems => exact absurd h (by simp [recordOk])
  · rintro ⟨lt, rt, st, h1, h2, h3⟩
    cases r with
    | obj fields =>
      obtain ⟨v1, hk1, hv1⟩ := tripleOf_ok_key fields "location" lt h1
      obtain ⟨v2, hk2, hv2⟩ := tripleOf_ok_key fields "rotation_euler" rt h2
      obtain ⟨v3, hk3, hv3⟩ := tripleOf_ok_key fields "scale" st h3
      simp [recordOk, hk1, hk2, hk3, hv1, hv2, hv3]
    | null => simp [tripleOf, subscript] at h1
    | bool b => simp [tripleOf, subscript] at h1
    | num q => simp [tripleOf, subscript] at h1
    | str s => simp [tripleOf, subscript] at h1
    | arr elems => simp [tripleOf, subscript] at h1

/-! ## A pass over well-shaped matched records succeeds -/

theorem runEntries_success (es : List (String × Json)) :
    ∀ s : Scene,
      (∀ p ∈ es, (findByName s p.1).isSome = true → recordOk p.2 = true) →
      (runEntries s es).err = none ∧
        (runEntries s es).output =
          es.filterMap (fun p =>
            if (findByName s p.1).isSome = true then some ("Restored " ++ p.1) else none) := by
  induction es with
  | nil => exact fun s _ => ⟨rfl, rfl⟩
  | cons p rest ih =>
    intro s hok
    obtain ⟨n, r⟩ := p
    cases hf : findByName s n with
    | none =>
      rw [runEntries, applyEntry_skip s n r hf]
      have htail := ih s (fun q hq => hok q (List.mem_cons_of_mem _ hq))
      have hcond : ¬(findByName s n).isSome = true := by rw [hf]; simp
      refine ⟨htail.1, ?_⟩
      simp only [List.filterMap_cons, hcond, if_false]
      simpa using htail.2
    | some o =>
      have hro : recordOk r = true :=
        hok (n, r) (List.mem_cons_self _ _) (by rw [hf]; rfl)
      obtain ⟨lt, rt, st, hl, hr, hs⟩ := (recordOk_iff r).mp hro
      rw [runEntries, applyEntry_success s n r o lt rt st hf hl hr hs]
      have hnames : (updateFirst s n (withAll lt rt st)).map SceneObject.name =
          s.map SceneObject.name := updateFirst_names s n _ (fun o => rfl)
      have hcond : ∀ m, (findByName (updateFirst s n (withAll lt rt st)) m).isSome =
          (findByName s m).isSome := fun m => findByName_isSome_congr m hnames
      have htail := ih (updateFirst s n (withAll lt rt st))
        (fun q hq hq2 => hok q (List.mem_cons_of_mem _ hq) (by rw [← hcond q.1]; exact hq2))
      have hfun : (fun p : String × Json =>
          if (findByName (updateFirst s n (withAll lt rt st)) p.1).isSome = true
          then some ("Restored " ++ p.1) else none) =
          (fun p : String × Json =>
            if (findByName s p.1).isSome = true then some ("Restored " ++ p.1) else none) :=
        funext fun p => by rw [hcond p.1]
      rw [hfun] at htail
      have hft : (findByName s n).isSome = true := by rw [hf]; rfl
      refine ⟨htail.1, ?_⟩
      simp only [List.filterMap_cons, hft, if_true]
      simpa using htail.2

/-! ## A malformed record on a matched object aborts the pass -/

theorem applyEntry_err_of_bad (s : Scene) (n : String) (r : Json) (o : SceneObject)
    (hf : findByName s n = some o) (hbad : recordOk r = false) :
    (applyEntry s n r).err.isSome = true := by
  cases hl : tripleOf r "location" with
  | error e => rw [applyEntry_err_loc s n r o e hf hl]; rfl
  | ok lt =>
    cases hr : tripleOf r "rotation_euler" with
    | error e => rw [applyEntry_err_rot s n r o lt e hf hl hr]; rfl
    | ok rt =>
      cases hsc : tripleOf r "scale" with
      | error e => rw [applyEntry_err_scale s n r o lt rt e hf hl hr hsc]; rfl
      | ok st =>
        exfalso
        have := (recordOk_iff r).mpr ⟨lt, rt, st, hl, hr, hsc⟩
        rw [hbad] at this
        exact Bool.noConfusion this

theorem runEntries_err_of_bad (es : List (String × Json)) :
    ∀ s : Scene,
      (∃ p ∈ es, (findByName s p.1).isSome = true ∧ recordOk p.2 = false) →
      (runEntries s es).err.isSome = true := by
  induction es with
  | nil => rintro s ⟨p, hp, -, -⟩; cases hp
  | cons q rest ih =>
    rintro s ⟨p, hp, hfp, hbp⟩
    obtain ⟨n, r⟩ := q
    rw [runEntries]
    cases he : (applyEntry s n r).err with
    | some e => simp [he]
    | none =>
      simp only [he]
      rcases List.mem_cons.mp hp with hhead | hrest
      · exfalso
        subst hhead
        obtain ⟨o, ho⟩ := Option.isSome_iff_exists.mp hfp
        have hbad := applyEntry_err_of_bad s n r o ho hbp
        rw [he] at hbad
        exact Bool.noConfusion hbad
      · have hnames := applyEntry_names s n r
        have hf' : (findByName (applyEntry s n r).scene p.1).isSome = true := by
          rw [findByName_isSome_congr p.1 hnames]; exact hfp
        exact ih (applyEntry s n r).scene ⟨p, hrest, hf', hbp⟩

/-! ## Replaying one iteration changes nothing -/

theorem applyEntry_idem (s : Scene) (n : String) (r : Json) :
    applyEntry (applyEntry s n r).scene n r = applyEntry s n r := by
  cases h : findByName s n with
  | none =>
    rw [applyEntry_skip s n r h]
    exact applyEntry_skip s n r h
  | some o =>
    cases hl : tripleOf r "location" with
    | error e =>
      rw [applyEntry_err_loc s n r o e h hl]
      exact applyEntry_err_loc s n r o e h hl
    | ok lt =>
      cases hr : tripleOf r "rotation_euler" with
      | error e =>
        rw [applyEntry_err_rot s n r o lt e h hl hr]
        have hf1 : findByName (updateFirst s n (withLoc lt)) n = some (withLoc lt o) := by
          rw [findByName_updateFirst_self s n (withLoc lt) (withLoc_name lt), h]; rfl
        rw [applyEntry_err_rot _ n r (withLoc lt o) lt e hf1 hl hr]
        rw [updateFirst_eq_self _ n (withLoc lt) (withLoc lt o) hf1 rfl]
      | ok rt =>
        cases hsc : tripleOf r "scale" with
        | error e =>
          rw [applyEntry_err_scale s n r o lt rt e h hl hr hsc]
          have hf1 : findByName (updateFirst s n (withLoc lt)) n = some (withLoc lt o) := by
            rw [findByName_updateFirst_self s n (withLoc lt) (withLoc_name lt), h]; rfl
          have hf2 : findByName (updateFirst (updateFirst s n (withLoc lt)) n (withRot rt)) n =
              some (withRot rt (withLoc lt o)) := by
            rw [findByName_updateFirst_self _ n (withRot rt) (withRot_name rt), hf1]; rfl
          rw [applyEntry_err_scale _ n r (withRot rt (withLoc lt o)) lt rt e hf2 hl hr hsc]
          rw [updateFirst_eq_self _ n (withLoc lt) (withRot rt (withLoc lt o)) hf2 rfl]
          rw [updateFirst_eq_self _ n (withRot rt) (withRot rt (withLoc lt o)) hf2 rfl]
        | ok st =>
          rw [applyEntry_success s n r o lt rt st h hl hr hsc]
          have hf1 : findByName (updateFirst s n (withAll lt rt st)) n =
              some (withAll lt rt st o) := by
            rw [findByName_updateFirst_self s n (withAll lt rt st) (fun o => rfl), h]; rfl
          rw [applyEntry_success _ n r (withAll lt rt st o) lt rt st hf1 hl hr hsc]
          rw [updateFirst_eq_self _ n (withAll lt rt st) (withAll lt rt st o) hf1 rfl]

/-! ## Scene-level unfolding equations for the pass -/

theorem runEntries_scene_cons_none (s : Scene) (n : String) (r : Json)
    (rest : List (String × Json)) (h : (applyEntry s n r).err = none) :
    (runEntries s ((n, r) :: rest)).scene =
      (runEntries (applyEntry s n r).scene rest).scene := by
  simp [runEntries, h]

theorem runEntries_scene_cons_some (s : Scene) (n : String) (r : Json)
    (rest : List (String × Json)) (e : RunError) (h : (applyEntry s n r).err = some e) :
    (runEntries s ((n, r) :: rest)).scene = (applyEntry s n r).scene := by
  simp [runEntries, h]

/-! ## Every matched, well-shaped entry ends with exactly the record's values -/

theorem runEntries_restores (es : List (String × Json)) :
    ∀ s : Scene, (es.map Prod.fst).Nodup →
      (∀ p ∈ es, (findByName s p.1).isSome = true) →
      (∀ p ∈ es, recordOk p.2 = true) →
      ∀ p ∈ es, ∀ lt rt st : Triple,
        tripleOf p.2 "location" = Except.ok lt →
        tripleOf p.2 "rotation_euler" = Except.ok rt →
        tripleOf p.2 "scale" = Except.ok st →
        ∃ o, findByName (runEntries s es).scene p.1 = some o ∧
          o.location = lt ∧ o.rotation_euler = rt ∧ o.scale = st := by
  induction es with
  | nil =>
    rintro s - - - p hp
    cases hp
  | cons q rest ih =>
    rintro s hnd hmatch hok p hp lt rt st hl hr hsc
    obtain ⟨n, r⟩ := q
    simp only [List.map_cons, List.nodup_cons] at hnd
    obtain ⟨hnn, hndrest⟩ := hnd
    have hfh : (findByName s n).isSome = true := hmatch (n, r) (List.mem_cons_self _ _)
    obtain ⟨o, ho⟩ := Option.isSome_iff_exists.mp hfh
    have hroh : recordOk r = true := hok (n, r) (List.mem_cons_self _ _)
    obtain ⟨lt0, rt0, st0, hl0, hr0, hs0⟩ := (recordOk_iff r).mp hroh
    have hsucc := applyEntry_success s n r o lt0 rt0 st0 ho hl0 hr0 hs0
    have herr : (applyEntry s n r).err = none := by rw [hsucc]
    rw [runEntries_scene_cons_none s n r rest herr, hsucc]
    have hnames1 : (updateFirst s n (withAll lt0 rt0 st0)).map SceneObject.name =
        s.map SceneObject.name := updateFirst_names s n _ (fun o => rfl)
    rcases List.mem_cons.mp hp with hhead | hrest
    · subst hhead
      have hlt : lt0 = lt := Except.ok.inj (hl0.symm.trans hl)
      have hrt : rt0 = rt := Except.ok.inj (hr0.symm.trans hr)
      have hst : st0 = st := Except.ok.inj (hs0.symm.trans hsc)
      subst hlt; subst hrt; subst hst
      refine ⟨withAll lt0 rt0 st0 o, ?_, rfl, rfl, rfl⟩
      rw [findByName_runEntries_notmem rest _ n hnn]
      show findByName (updateFirst s n (withAll lt0 rt0 st0)) n = some (withAll lt0 rt0 st0 o)
      rw [findByName_updateFirst_self s n (withAll lt0 rt0 st0) (fun o => rfl), ho]
      rfl
    · have hmatch' : ∀ q ∈ rest,
          (findByName (updateFirst s n (withAll lt0 rt0 st0)) q.1).isSome = true := by
        intro q hq
        rw [findByName_isSome_congr q.1 hnames1]
        exact hmatch q (List.mem_cons_of_mem _ hq)
      exact ih (updateFirst s n (withAll lt0 rt0 st0)) hndrest hmatch'
        (fun q hq => hok q (List.mem_cons_of_mem _ hq)) p hrest lt rt st hl hr hsc

/-! ## Restoring twice is the same as restoring once -/

theorem runEntries_idem (es : List (String × Json)) :
    ∀ s : Scene, (es.map Prod.fst).Nodup →
      (runEntries (runEntries s es).scene es).scene = (runEntries s es).scene := by
  induction es with
  | nil => intro s _; rfl
  | cons q rest ih =>
    intro s hnd
    obtain ⟨n, r⟩ := q
    simp only [List.map_cons, List.nodup_cons] at hnd
    obtain ⟨hnn, hndrest⟩ := hnd
    cases he : (applyEntry s n r).err with
    | some e =>
      have hidem := applyEntry_idem s n r
      have he2 : (applyEntry (applyEntry s n r).scene n r).err = some e := by
        rw [hidem]; exact he
      rw [runEntries_scene_cons_some s n r rest e he,
        runEntries_scene_cons_some _ n r rest e he2]
      rw [hidem]
    | none =>
      rw [runEntries_scene_cons_none s n r rest he]
      cases hfo : findByName s n with
      | none =>
        have hskip := applyEntry_skip s n r hfo
        have hsceneA : (applyEntry s n r).scene = s := by rw [hskip]
        rw [hsceneA]
        have hnamesF : (runEntries s rest).scene.map SceneObject.name =
            s.map SceneObject.name := runEntries_names rest s
        have hfoF : findByName (runEntries s rest).scene n = none := by
          rw [findByName_eq_none_iff, hnamesF, ← findByName_eq_none_iff]
          exact hfo
        have hskipF := applyEntry_skip (runEntries s rest).scene n r hfoF
        have herrF : (applyEntry (runEntries s rest).scene n r).err = none := by rw [hskipF]
        rw [runEntries_scene_cons_none _ n r rest herrF]
        have hsceneF : (applyEntry (runEntries s rest).scene n r).scene =
            (runEntries s rest).scene := by rw [hskipF]
        rw [hsceneF]
        exact ih s hndrest
      | some o =>
        cases hl : tripleOf r "location" with
        | error e =>
          rw [applyEntry_err_loc s n r o e hfo hl] at he
          exact absurd he (by simp)
        | ok lt =>
        cases hr : tripleOf r "rotation_euler" with
        | error e =>
          rw [applyEntry_err_rot s n r o lt e hfo hl hr] at he
          exact absurd he (by simp)
        | ok rt =>
        cases hsc : tripleOf r "scale" with
        | error e =>
          rw [applyEntry_err_scale s n r o lt rt e hfo hl hr hsc] at he
          exact absurd he (by simp)
        | ok st =>
          have hsucc := applyEntry_success s n r o lt rt st hfo hl hr hsc
          have hsceneA : (applyEntry s n r).scene = updateFirst s n (withAll lt rt st) := by
            rw [hsucc]
          rw [hsceneA]
          have hfind1 : findByName (updateFirst s n (withAll lt rt st)) n =
              some (withAll lt rt st o) := by
            rw [findByName_updateFirst_self s n (withAll lt rt st) (fun o => rfl), hfo]
            rfl
          have hfindF : findByName
              (runEntries (updateFirst s n (withAll lt rt st)) rest).scene n =
              some (withAll lt rt st o) := by
            rw [findByName_runEntries_notmem rest _ n hnn]
            exact hfind1
          have hsucc2 := applyEntry_success
            (runEntries (updateFirst s n (withAll lt rt st)) rest).scene n r
            (withAll lt rt st o) lt rt st hfindF hl hr hsc
          have herrF : (applyEntry
              (runEntries (updateFirst s n (withAll lt rt st)) rest).scene n r).err = none := by
            rw [hsucc2]
          rw [runEntries_scene_cons_none _ n r rest herrF]
          have hupd : updateFirst
              (runEntries (updateFirst s n (withAll lt rt st)) rest).scene n
              (withAll lt rt st) =
              (runEntries (updateFirst s n (withAll lt rt st)) rest).scene :=
            updateFirst_eq_self _ n _ (withAll lt rt st o) hfindF rfl
          have hsceneF : (applyEntry
              (runEntries (updateFirst s n (withAll lt rt st)) rest).scene n r).scene =
              (runEntries (updateFirst s n (withAll lt rt st)) rest).scene := by
            rw [hsucc2]
            exact hupd
          rw [hsceneF]
          exact ih (updateFirst s n (withAll lt rt st)) hndrest

/-! ## Frame effect: what a run may touch -/

/-- Pointwise frame relation between an object before and after a run
addressing `keys`: the name and the untouched fields survive, and an
object whose name is not addressed survives entirely. -/
def FrameOk (keys : List String) (o o' : SceneObject) : Prop :=
  o'.name = o.name ∧ o'.other = o.other ∧ (o.name ∉ keys → o' = o)

theorem FrameOk_refl (keys : List String) (o : SceneObject) : FrameOk keys o o :=
  ⟨rfl, rfl, fun _ => rfl⟩

theorem FrameOk_mono {k1 k2 : List String} {o o' : SceneObject}
    (hsub : ∀ x ∈ k1, x ∈ k2) (h : FrameOk k1 o o') : FrameOk k2 o o' :=
  ⟨h.1, h.2.1, fun hn => h.2.2 (fun hc => hn (hsub _ hc))⟩

theorem FrameOk_trans {keys : List String} {o o' o'' : SceneObject}
    (h1 : FrameOk keys o o') (h2 : FrameOk keys o' o'') : FrameOk keys o o'' := by
  refine ⟨h2.1.trans h1.1, h2.2.1.trans h1.2.1, fun hn => ?_⟩
  have ho' : o' = o := h1.2.2 hn
  have hn' : o'.name ∉ keys := by rw [h1.1]; exact hn
  rw [h2.2.2 hn', ho']

theorem forall₂_frame_refl (keys : List String) (s : Scene) :
    List.Forall₂ (FrameOk keys) s s := by
  induction s with
  | nil => exact List.Forall₂.nil
  | cons o rest ih => exact List.Forall₂.cons (FrameOk_refl keys o) ih

theorem forall₂_frame_trans (keys : List String) :
    ∀ {s t u : Scene}, List.Forall₂ (FrameOk keys) s t →
      List.Forall₂ (FrameOk keys) t u → List.Forall₂ (FrameOk keys) s u := by
  intro s t u h1
  induction h1 generalizing u with
  | nil =>
    intro h2
    cases h2
    exact List.Forall₂.nil
  | cons hx hrest ih =>
    intro h2
    cases h2 with
    | cons hy hrest2 => exact List.Forall₂.cons (FrameOk_trans hx hy) (ih hrest2)

theorem forall₂_frame_mono {k1 k2 : List String} (hsub : ∀ x ∈ k1, x ∈ k2) :
    ∀ {s t : Scene}, List.Forall₂ (FrameOk k1) s t → List.Forall₂ (FrameOk k2) s t := by
  intro s t h
  induction h with
  | nil => exact List.Forall₂.nil
  | cons hx _ ih => exact List.Forall₂.cons (FrameOk_mono hsub hx) ih

theorem updateFirst_frame (s : Scene) (n : String) (f : SceneObject → SceneObject)
    (hf : ∀ o, (f o).name = o.name) (hother : ∀ o, (f o).other = o.other) :
    List.Forall₂ (FrameOk [n]) s (updateFirst s n f) := by
  induction s with
  | nil => exact List.Forall₂.nil
  | cons o rest ih =>
    by_cases hn : o.name = n
    · have hel : FrameOk [n] o (f o) := by
        refine ⟨hf o, hother o, fun hmem => absurd ?_ hmem⟩
        rw [hn]
        exact List.mem_singleton_self n
      simpa [updateFirst, hn] using List.Forall₂.cons hel (forall₂_frame_refl [n] rest)
    · simpa [updateFirst, hn] using List.Forall₂.cons (FrameOk_refl [n] o) ih

theorem applyEntry_frame (s : Scene) (n : String) (r : Json) :
    List.Forall₂ (FrameOk [n]) s (applyEntry s n r).scene := by
  cases h : findByName s n with
  | none =>
    rw [applyEntry_skip s n r h]
    exact forall₂_frame_refl [n] s
  | some o =>
    cases hl : tripleOf r "location" with
    | error e =>
      rw [applyEntry_err_loc s n r o e h hl]
      exact forall₂_frame_refl [n] s
    | ok lt =>
      have h1 := updateFirst_frame s n (withLoc lt) (withLoc_name lt) (fun o => rfl)
      cases hr : tripleOf r "rotation_euler" with
      | error e =>
        rw [applyEntry_err_rot s n r o lt e h hl hr]
        exact h1
      | ok rt =>
        have h2 := updateFirst_frame (updateFirst s n (withLoc lt)) n (withRot rt)
          (withRot_name rt) (fun o => rfl)
        cases hsc : tripleOf r "scale" with
        | error e =>
          rw [applyEntry_err_scale s n r o lt rt e h hl hr hsc]
          exact forall₂_frame_trans [n] h1 h2
        | ok st =>
          rw [applyEntry_success s n r o lt rt st h hl hr hsc]
          exact forall₂_frame_trans [n]
            (forall₂_frame_refl [n] s)
            (updateFirst_frame s n (withAll lt rt st) (fun o => rfl) (fun o => rfl))

theorem runEntries_frame (es : List (String × Json)) :
    ∀ s : Scene, List.Forall₂ (FrameOk (es.map Prod.fst)) s (runEntries s es).scene := by
  induction es with
  | nil => exact fun s => forall₂_frame_refl [] s
  | cons q rest ih =>
    intro s
    obtain ⟨n, r⟩ := q
    have hsub1 : ∀ x ∈ [n], x ∈ ((n, r) :: rest).map Prod.fst := by
      intro x hx
      rw [List.mem_singleton] at hx
      subst hx
      exact List.mem_cons_self _ _
    have hsub2 : ∀ x ∈ rest.map Prod.fst, x ∈ ((n, r) :: rest).map Prod.fst := by
      intro x hx
      exact List.mem_cons_of_mem _ hx
    have hhead := forall₂_frame_mono hsub1 (applyEntry_frame s n r)
    cases he : (applyEntry s n r).err with
    | some e =>
      rw [runEntries_scene_cons_some s n r rest e he]
      exact hhead
    | none =>
      rw [runEntries_scene_cons_none s n r rest he]
      have htail := forall₂_frame_mono hsub2 (ih (applyEntry s n r).scene)
      exact forall₂_frame_trans _ hhead htail

theorem restore_frame (fs : FileState) (s : Scene) :
    List.Forall₂ (FrameOk (stateKeys fs)) s (restore_assembled_state fs s).scene := by
  cases fs with
  | missing => exact forall₂_frame_refl _ s
  | invalidJson msg => exact forall₂_frame_refl _ s
  | parsed doc =>
    cases doc with
    | obj entries => exact runEntries_frame entries s
    | null => exact forall₂_frame_refl _ s
    | bool b => exact forall₂_frame_refl _ s
    | num q => exact forall₂_frame_refl _ s
    | str str => exact forall₂_frame_refl _ s
    | arr elems => exact forall₂_frame_refl _ s

theorem restore_scene_length (fs : FileState) (s : Scene) :
    (restore_assembled_state fs s).scene.length = s.length :=
  ((restore_frame fs s).length_eq).symm

/-! ## Concrete sample data, used to witness the claim theorems -/

/-- A sample object the state file addresses, at a transform different
from the saved one. -/
def sampleObj : SceneObject := ⟨"Obj1", ⟨9, 9, 9⟩, ⟨9, 9, 9⟩, ⟨9, 9, 9⟩, 5⟩

/-- A sample scene: the addressed object plus one the state file never
mentions. -/
def sampleScene : Scene := [sampleObj, ⟨"Other", ⟨0, 0, 0⟩, ⟨0, 0, 0⟩, ⟨1, 1, 1⟩, 7⟩]

/-- A well-shaped transform record. -/
def sampleRecord : Json :=
  .obj [("location", .arr [.num 1, .num 2, .num 3]),
    ("rotation_euler", .arr [.num 0, .num 0, .num 0]),
    ("scale", .arr [.num 1, .num 1, .num 1])]

/-- A one-entry saved state addressing `Obj1`. -/
def sampleEntries : List (String × Json) := [("Obj1", sampleRecord)]

/-- A malformed record on a matched object: `location` is not a
3-component numeric array, and the other two keys are missing. -/
def badEntries : List (String × Json) := [("Obj1", .obj [("location", .num 5)])]

/-! ## The claims -/

/-- C1: for every saved state whose keys all match live objects and
whose records are well shaped, after restoration each named object's
`location`, `rotation_euler` and `scale` equal exactly the record's
triples — the numeric components are passed through unchanged, fully
overwriting whatever the object held before (the initial scene is
universally quantified). -/
theorem claim_C1 (entries : List (String × Json)) (scene : Scene)
    (hnd : (entries.map Prod.fst).Nodup)
    (hmatch : ∀ p ∈ entries, (findByName scene p.1).isSome = true)
    (hok : ∀ p ∈ entries, recordOk p.2 = true) :
    ∀ p ∈ entries, ∀ lt rt st : Triple,
      tripleOf p.2 "location" = Except.ok lt →
      tripleOf p.2 "rotation_euler" = Except.ok rt →
      tripleOf p.2 "scale" = Except.ok st →
      ∃ o, findByName (restore_assembled_state (.parsed (.obj entries)) scene).scene p.1 =
          some o ∧
        o.location = lt ∧ o.rotation_euler = rt ∧ o.scale = st :=
  runEntries_restores entries scene hnd hmatch hok

theorem claim_C1_witness :
    ∃ o, findByName
        (restore_assembled_state (.parsed (.obj sampleEntries)) sampleScene).scene "Obj1" =
        some o ∧
      o.location = ⟨1, 2, 3⟩ ∧ o.rotation_euler = ⟨0, 0, 0⟩ ∧ o.scale = ⟨1, 1, 1⟩ :=
  claim_C1 sampleEntries sampleScene (by decide) (by decide) (by decide)
    ("Obj1", sampleRecord) (List.mem_singleton_self _) ⟨1, 2, 3⟩ ⟨0, 0, 0⟩ ⟨1, 1, 1⟩
    rfl rfl rfl

/-- C2: when the fixed state-file path does not exist, the run mutates
no object, prints exactly one diagnostic naming the path, raises nothing
to the caller, and returns. -/
theorem claim_C2 (scene : Scene) :
    (restore_assembled_state .missing scene).scene = scene ∧
    (restore_assembled_state .missing scene).output =
      ["Error: " ++ state_path ++ " not found."] ∧
    (restore_assembled_state .missing scene).output.length = 1 ∧
    (restore_assembled_state .missing scene).err = none :=
  ⟨rfl, rfl, rfl, rfl⟩

/-- C3: an entry whose name matches no live object is skipped silently —
the pass on the scene continues exactly as if the entry were absent —
and restoration never changes the number of objects in the scene. -/
theorem claim_C3 (scene : Scene) (n : String) (r : Json) (rest : List (String × Json))
    (h : findByName scene n = none) :
    runEntries scene ((n, r) :: rest) = runEntries scene rest ∧
    (restore_assembled_state (.parsed (.obj ((n, r) :: rest))) scene).scene.length =
      scene.length := by
  constructor
  · rw [runEntries, applyEntry_skip scene n r h]
    rcases hE : runEntries scene rest with ⟨sc, out, er⟩
    simp
  · exact restore_scene_length _ _

theorem claim_C3_witness :
    runEntries sampleScene (("Ghost", sampleRecord) :: sampleEntries) =
      runEntries sampleScene sampleEntries ∧
    (restore_assembled_state
        (.parsed (.obj (("Ghost", sampleRecord) :: sampleEntries))) sampleScene).scene.length =
      sampleScene.length :=
  claim_C3 sampleScene "Ghost" sampleRecord sampleEntries (by decide)

/-- C4: running the restoration twice with the same file state and from
the resulting scene yields the same final scene as running it once —
the operation is idempotent on the scene (the file state is required to
carry a genuine `SavedState`, i.e. a mapping with unique keys, which is
what `json.load` produces). -/
theorem claim_C4 (fs : FileState) (scene : Scene) (h : IsSavedState fs) :
    (restore_assembled_state fs (restore_assembled_state fs scene).scene).scene =
      (restore_assembled_state fs scene).scene := by
  cases fs with
  | missing => rfl
  | invalidJson msg => rfl
  | parsed doc =>
    cases doc with
    | obj entries => exact runEntries_idem entries scene h
    | null => rfl
    | bool b => rfl
    | num q => rfl
    | str str => rfl
    | arr elems => rfl

theorem claim_C4_witness :
    (restore_assembled_state (.parsed (.obj sampleEntries))
        (restore_assembled_state (.parsed (.obj sampleEntries)) sampleScene).scene).scene =
      (restore_assembled_state (.parsed (.obj sampleEntries)) sampleScene).scene :=
  claim_C4 (.parsed (.obj sampleEntries)) sampleScene (List.nodup_singleton _)

/-- C5: when the file exists but is not well-formed JSON, the parse
failure is not caught: it propagates to the caller as the run's fatal
error, with the scene untouched and nothing printed. -/
theorem claim_C5 (msg : String) (scene : Scene) :
    restore_assembled_state (.invalidJson msg) scene =
      ⟨scene, [], some (.parseError msg)⟩ := rfl

/-- C6: no record validation exists — under the precondition that every
record of a matched object carries the three keys with 3-component
numeric triples, the run finishes with no error; and whenever some
matched object's record violates that shape, the failure propagates as
an unhandled error terminating the run. -/
theorem claim_C6 (entries : List (String × Json)) (scene : Scene) :
    ((∀ p ∈ entries, (findByName scene p.1).isSome = true → recordOk p.2 = true) →
      (restore_assembled_state (.parsed (.obj entries)) scene).err = none) ∧
    ((∃ p ∈ entries, (findByName scene p.1).isSome = true ∧ recordOk p.2 = false) →
      (restore_assembled_state (.parsed (.obj entries)) scene).err.isSome = true) :=
  ⟨fun h => (runEntries_success entries scene h).1,
   fun h => runEntries_err_of_bad entries scene h⟩

theorem claim_C6_witness :
    (restore_assembled_state (.parsed (.obj sampleEntries)) sampleScene).err = none ∧
    (restore_assembled_state (.parsed (.obj badEntries)) sampleScene).err.isSome = true :=
  ⟨(claim_C6 sampleEntries sampleScene).1 (by decide),
   (claim_C6 badEntries sampleScene).2 (by decide)⟩

/-- C7: a state file holding the empty JSON object restores nothing:
the scene is unchanged, no message is printed, and the run completes
without error. -/
theorem claim_C7 (scene : Scene) :
    restore_assembled_state (.parsed (.obj [])) scene = ⟨scene, [], none⟩ := rfl

/-- C8: the run's entire observable output is one "Restored <name>"
line per matched entry, in mapping order — unmatched entries produce
nothing; there is no structured result beyond this console text and the
scene mutation. -/
theorem claim_C8 (entries : List (String × Json)) (scene : Scene)
    (h : ∀ p ∈ entries, (findByName scene p.1).isSome = true → recordOk p.2 = true) :
    (restore_assembled_state (.parsed (.obj entries)) scene).output =
      entries.filterMap (fun p =>
        if (findByName scene p.1).isSome = true then some ("Restored " ++ p.1) else none) :=
  (runEntries_success entries scene h).2

theorem claim_C8_witness :
    (restore_assembled_state (.parsed (.obj sampleEntries)) sampleScene).output =
      ["Restored Obj1"] := by
  rw [claim_C8 sampleEntries sampleScene (by decide)]
  rfl

/-- C9: frame effect — restoration preserves the number and order of
scene objects, never changes any object's name or its fields other than
the three transform fields, and leaves every object whose name is not a
key of the saved state entirely unchanged. -/
theorem claim_C9 (fs : FileState) (s : Scene) :
    (restore_assembled_state fs s).scene.length = s.length ∧
    ∀ i (h1 : i < s.length) (h2 : i < (restore_assembled_state fs s).scene.length),
      ((restore_assembled_state fs s).scene.get ⟨i, h2⟩).name = (s.get ⟨i, h1⟩).name ∧
      ((restore_assembled_state fs s).scene.get ⟨i, h2⟩).other = (s.get ⟨i, h1⟩).other ∧
      ((s.get ⟨i, h1⟩).name ∉ stateKeys fs →
        (restore_assembled_state fs s).scene.get ⟨i, h2⟩ = s.get ⟨i, h1⟩) := by
  have hf := restore_frame fs s
  have hiff := List.forall₂_iff_get.mp hf
  exact ⟨hiff.1.symm, fun i h1 h2 => hiff.2 i h1 h2⟩

theorem claim_C9_witness :
    ∃ h2 : 1 < (restore_assembled_state (.parsed (.obj sampleEntries)) sampleScene).scene.length,
      (restore_assembled_state (.parsed (.obj sampleEntries)) sampleScene).scene.get ⟨1, h2⟩ =
        sampleScene.get ⟨1, by decide⟩ := by
  have h := claim_C9 (.parsed (.obj sampleEntries)) sampleScene
  have h2 : 1 < (restore_assembled_state
      (.parsed (.obj sampleEntries)) sampleScene).scene.length := by
    rw [h.1]; decide
  exact ⟨h2, (h.2 1 (by decide) h2).2.2 (by decide)⟩

/-- C10: the restoration is deterministic — it is a pure function of the
file state and the initial scene, reading no clock, randomness or other
ambient input, so two runs from equal file contents and equal scenes
produce equal final scenes, equal printed output and equal errors. -/
theorem claim_C10 (fs1 fs2 : FileState) (s1 s2 : Scene)
    (hf : fs1 = fs2) (hs : s1 = s2) :
    restore_assembled_state fs1 s1 = restore_assembled_state fs2 s2 := by
  subst hf
  subst hs
  rfl

theorem claim_C10_witness :
    restore_assembled_state .missing sampleScene =
      restore_assembled_state .missing sampleScene :=
  claim_C10 .missing .missing sampleScene sampleScene rfl rfl

end RestoreLamp
